import Mathlib

/-!
Verification of the performance-aggregation and topic-normalization engine in
`src/core/analytics.py`.

The Python module mutates a persisted per-user `state` object through
`load_state`/`save_state`.  The embedding makes that state explicit: every
operation is a pure function from a `State` (plus its arguments) to a `State`
and/or a result.  Python dictionaries are modelled as association lists
(`List (String × α)`) whose operations mirror dict semantics (lookup of the
first matching key; `d[k] = v` replaces in place or appends).  A Python
attribute that may be missing or `None` is modelled as `Option`.  Python
string truthiness (`None` and `""` are falsy) is modelled by `strTruthy`.
Timestamps (`datetime.now().isoformat()`) are passed in as explicit string
arguments.  Floats are modelled as rationals.  The `md5` hash used for file
identifiers is kept abstract as a function parameter `h : String → String`.
-/

namespace Analytics

/-- Python dict lookup `d.get(k)` on an association list: first matching key. -/
def alLookup {α : Type} : List (String × α) → String → Option α
  | [], _ => none
  | p :: rest, k => if p.1 = k then some p.2 else alLookup rest k

/-- Python dict assignment `d[k] = v`: replace the first entry with key `k`
in place, or append a new entry at the end (dicts preserve insertion order). -/
def alSet {α : Type} : List (String × α) → String → α → List (String × α)
  | [], k, v => [(k, v)]
  | p :: rest, k, v => if p.1 = k then (k, v) :: rest else p :: alSet rest k v

/-- Python truthiness of an optional string: `None` and `""` are falsy. -/
def strTruthy : Option String → Bool
  | none => false
  | some s => !(s == "")

/-- Whether the first list is an initial segment of the second. -/
def leadsWith : List Char → List Char → Bool
  | [], _ => true
  | _ :: _, [] => false
  | a :: as, b :: bs => a = b && leadsWith as bs

/-- Scan for the first occurrence of `pat`: on success return the part before
the match and the part after it. -/
def breakOnAux (pat : List Char) : List Char → Option (List Char × List Char)
  | [] => if pat = [] then some ([], []) else none
  | c :: rest =>
    if leadsWith pat (c :: rest) then some ([], (c :: rest).drop pat.length)
    else
      match breakOnAux pat rest with
      | some (pre, post) => some (c :: pre, post)
      | none => none

/-- Python `sub in s`. -/
def containsSubstr (s sub : String) : Bool :=
  (breakOnAux sub.toList s.toList).isSome

/-- Python `chunk_id.split("_chunk_")[0]`: the prefix before the first
occurrence of `"_chunk_"` (the whole string when there is no occurrence). -/
def fileHashOf (key : String) : String :=
  match breakOnAux "_chunk_".toList key.toList with
  | some (pre, _) => pre.asString
  | none => key

/-- The aggregation bucket of a chunk key in `group_chunks_by_file`
(analytics.py lines 265-271): the prefix before the first `"_chunk_"`,
or the literal `"unknown"` when the key lacks that substring. -/
def bucketOf (key : String) : String :=
  if containsSubstr key "_chunk_" then fileHashOf key else "unknown"

/-- Python `s[:n]` (slicing is by characters). -/
def pyTake (n : Nat) (s : String) : String :=
  (s.toList.take n).asString

/-- Python `l[-n:]`: the last `n` elements (all of them when `l` is shorter). -/
def lastN {α : Type} (n : Nat) (l : List α) : List α :=
  l.drop (l.length - n)

/-- One entry of a chunk record's bounded question history
(analytics.py lines 93-97). -/
structure QEntry where
  question : String
  correct : Bool
  timestamp : String
deriving DecidableEq

/-- A chunk record of the performance ledger (analytics.py lines 69-77).
`filename := none` models Python `None`. -/
structure Perf where
  correct : Nat := 0
  incorrect : Nat := 0
  attempts : Nat := 0
  last_attempt : Option String := none
  source_reference : String := ""
  filename : Option String := none
  questions : List QEntry := []
deriving DecidableEq

/-- The persisted state.  `none` models the attribute being missing or `None`
(the code tests `not hasattr(state, f) or state.f is None` as one condition). -/
structure State where
  file_mapping : Option (List (String × String)) := none
  chunk_performance : Option (List (String × Perf)) := none
deriving DecidableEq

/-- The body of `record_quiz_answer` acting on the (possibly absent) existing
record for the resolved key (analytics.py lines 68-100):
create-or-backfill, increment counters, stamp the timestamp, and append the
truncated question (keeping only the last 10). -/
def stepPerf (o : Option Perf) (source_reference : String) (is_correct : Bool)
    (question_text : String) (filename : Option String) (now : String) : Perf :=
  let p0 : Perf :=
    match o with
    | none =>
      { correct := 0, incorrect := 0, attempts := 0, last_attempt := none,
        source_reference := source_reference, filename := filename, questions := [] }
    | some p =>
      if strTruthy filename ∧ ¬ strTruthy p.filename then { p with filename := filename } else p
  let p1 : Perf :=
    { p0 with attempts := p0.attempts + 1,
              correct := p0.correct + (if is_correct then 1 else 0),
              incorrect := p0.incorrect + (if is_correct then 0 else 1),
              last_attempt := some now }
  if question_text = "" then p1
  else
    let qs := p1.questions ++ [⟨pyTake 200 question_text, is_correct, now⟩]
    { p1 with questions := if qs.length > 10 then qs.drop (qs.length - 10) else qs }

/-- `record_quiz_answer` (analytics.py lines 41-106).  The key is
`chunk_id if chunk_id else source_reference` (line 66); the function always
ensures the ledger exists and always saves.  The two `datetime.now()` calls
(lines 89 and 96) are modelled by the single `now` argument. -/
def record_quiz_answer (st : State) (chunk_id source_reference : String) (is_correct : Bool)
    (question_text : String) (filename : Option String) (now : String) : State :=
  let cp := st.chunk_performance.getD []
  let key := if chunk_id = "" then source_reference else chunk_id
  let p := stepPerf (alLookup cp key) source_reference is_correct question_text filename now
  { st with chunk_performance := some (alSet cp key p) }

/-- One call of a `record_quiz_answer` sequence. -/
structure Call where
  is_correct : Bool
  question_text : String
  filename : Option String
  now : String
deriving DecidableEq

/-- A sequence of `record_quiz_answer` calls with a fixed chunk id and source
reference. -/
def recordMany (st : State) (key src : String) (calls : List Call) : State :=
  calls.foldl
    (fun s c => record_quiz_answer s key src c.is_correct c.question_text c.filename c.now) st

/-- Iterating `stepPerf` over a call sequence, starting from an optional
existing record. -/
def iterPerf (o : Option Perf) (src : String) (calls : List Call) : Option Perf :=
  calls.foldl
    (fun o' c => some (stepPerf o' src c.is_correct c.question_text c.filename c.now)) o

/-- The (attempts, correct, incorrect) counters stored for a key
(zeros when absent). -/
def countsAt (st : State) (key : String) : Nat × Nat × Nat :=
  match alLookup (st.chunk_performance.getD []) key with
  | none => (0, 0, 0)
  | some p => (p.attempts, p.correct, p.incorrect)

/-- The question-history entries a call sequence contributes: one entry per
call with non-empty question text, in call order, text truncated to 200
characters (analytics.py lines 92-97). -/
def qEntries (calls : List Call) : List QEntry :=
  (calls.filter (fun c => c.question_text != "")).map
    (fun c => ⟨pyTake 200 c.question_text, c.is_correct, c.now⟩)

/-- The result dictionary of `get_chunk_performance` (analytics.py lines
124-145).  The early-return dictionary of the absent-ledger branch lacks the
`last_attempt` key; that absence is modelled as `none`. -/
structure ChunkStats where
  correct : Nat
  incorrect : Nat
  attempts : Nat
  accuracy : ℚ
  source_reference : String
  last_attempt : Option String
deriving DecidableEq

/-- `get_chunk_performance` (analytics.py lines 109-145). -/
def get_chunk_performance (st : State) (chunk_id : String) : ChunkStats :=
  match st.chunk_performance with
  | none =>
    { correct := 0, incorrect := 0, attempts := 0, accuracy := 0,
      source_reference := "", last_attempt := none }
  | some cp =>
    let perf := (alLookup cp chunk_id).getD {}
    let attempts := perf.attempts
    let correct := perf.correct
    let accuracy : ℚ := if attempts > 0 then (correct : ℚ) / (attempts : ℚ) * 100 else 0
    { correct := correct, incorrect := perf.incorrect, attempts := attempts,
      accuracy := accuracy, source_reference := perf.source_reference,
      last_attempt := perf.last_attempt }

/-- `register_file` (analytics.py lines 12-38), with the md5-derived
8-character identifier kept abstract as `h`.  The returned `Bool` is `true`
exactly when the mapping was persisted (and the informational event logged):
both happen only inside the `if file_hash not in state.file_mapping` branch.
The `state.file_mapping = {}` repair on line 27 is only persisted when that
branch saves. -/
def register_file (h : String → String) (st : State) (filename : String) :
    String × State × Bool :=
  let m := st.file_mapping.getD []
  let fh := h filename
  if alLookup m fh = none then
    (fh, { st with file_mapping := some (alSet m fh filename) }, true)
  else
    (fh, st, false)

/-- One step of `backfill_file_mapping_from_chunks` (analytics.py lines
231-241): accumulator is the working mapping plus the `updated` flag. -/
def backfillStep (acc : List (String × String) × Bool) (e : String × Perf) :
    List (String × String) × Bool :=
  match e.2.filename with
  | some fn =>
    if fn ≠ "" ∧ fn ≠ "unknown_file" ∧ containsSubstr e.1 "_chunk_" then
      if alLookup acc.1 (fileHashOf e.1) = none then
        (alSet acc.1 (fileHashOf e.1) fn, true)
      else acc
    else acc
  | none => acc

/-- `backfill_file_mapping_from_chunks` (analytics.py lines 218-244).
Saves (hence persists the repaired mapping) only when at least one entry was
added. -/
def backfill_file_mapping_from_chunks (st : State) : State :=
  match st.chunk_performance with
  | none => st
  | some cp =>
    if cp = [] then st
    else
      let r := cp.foldl backfillStep (st.file_mapping.getD [], false)
      if r.2 then { st with file_mapping := some r.1 } else st

/-- Filename resolution on first sight of a file hash in `group_chunks_by_file`
(analytics.py lines 276-281): take the metrics' own filename; when that is
falsy or the sentinel, and the state's mapping is present and non-empty,
replace it by the registry lookup (which may be `None`). -/
def resolveFilenameFirst (st : State) (fh : String) (pf : Option String) : Option String :=
  if ¬ strTruthy pf ∨ pf = some "unknown_file" then
    match st.file_mapping with
    | some m => if m ≠ [] then alLookup m fh else pf
    | none => pf
  else pf

/-- The opportunistic write-back registration in `group_chunks_by_file`
(analytics.py lines 298-304): persisted only when the hash was absent. -/
def autoRegister (st : State) (fh fn : String) : State :=
  let m := st.file_mapping.getD []
  if alLookup m fh = none then { st with file_mapping := some (alSet m fh fn) } else st

/-- A per-file rollup of `group_chunks_by_file` (analytics.py lines 283-291),
with the `accuracy` and `last_attempt` fields filled in by the final pass. -/
structure Rollup where
  file_hash : String
  filename : Option String
  chunks : List (String × Perf)
  total_attempts : Nat
  total_correct : Nat
  total_incorrect : Nat
  chunks_with_data : Nat
  accuracy : ℚ := 0
  last_attempt : Option String := none
deriving DecidableEq

/-- Adding one record to a rollup (analytics.py lines 313-321). -/
def addChunk (r : Rollup) (key : String) (pf : Perf) : Rollup :=
  { r with chunks := alSet r.chunks key pf,
           total_attempts := r.total_attempts + pf.attempts,
           total_correct := r.total_correct + pf.correct,
           total_incorrect := r.total_incorrect + pf.incorrect,
           chunks_with_data := r.chunks_with_data + (if pf.attempts > 0 then 1 else 0) }

/-- The rollup created on first sight of a file hash
(analytics.py lines 283-291). -/
def freshRollup (st : State) (fh : String) (pf : Perf) : Rollup :=
  { file_hash := fh, filename := resolveFilenameFirst st fh pf.filename, chunks := [],
    total_attempts := 0, total_correct := 0, total_incorrect := 0, chunks_with_data := 0 }

/-- The registry write-back performed when a later record supplies a filename
for an already-seen hash (analytics.py lines 296-304): only truthy,
non-sentinel filenames are registered. -/
def writeBackRegister (st : State) (fh : String) (fn : Option String) : State :=
  match fn with
  | some s => if s ≠ "" ∧ s ≠ "unknown_file" then autoRegister st fh s else st
  | none => st

/-- The third fallback of `group_chunks_by_file` (analytics.py lines
305-311): when the rollup filename is still falsy or the sentinel, consult
the registry; only a truthy mapped value is taken. -/
def resolveFilenameLater (st : State) (fh : String) (r : Rollup) : Rollup :=
  match st.file_mapping with
  | some m =>
    if m ≠ [] then
      match alLookup m fh with
      | some mf => if mf ≠ "" then { r with filename := some mf } else r
      | none => r
    else r
  | none => r

/-- One iteration of the main loop of `group_chunks_by_file`
(analytics.py lines 263-321).  The `chunk_num` local computed on lines
267/271 is never read afterwards in the source, so it is not modelled. -/
def groupStep (acc : State × List (String × Rollup)) (e : String × Perf) :
    State × List (String × Rollup) :=
  let st := acc.1
  let files := acc.2
  let key := e.1
  let pf := e.2
  let fh := bucketOf key
  match alLookup files fh with
  | none => (st, alSet files fh (addChunk (freshRollup st fh pf) key pf))
  | some r =>
    if strTruthy pf.filename ∧ ¬ strTruthy r.filename then
      (writeBackRegister st fh pf.filename,
        alSet files fh (addChunk { r with filename := pf.filename } key pf))
    else if ¬ strTruthy r.filename ∨ r.filename = some "unknown_file" then
      (st, alSet files fh (addChunk (resolveFilenameLater st fh r) key pf))
    else
      (st, alSet files fh (addChunk r key pf))

/-- The main loop of `group_chunks_by_file` as a fold. -/
def groupFold (acc : State × List (String × Rollup)) (l : List (String × Perf)) :
    State × List (String × Rollup) :=
  l.foldl groupStep acc

/-- Python `max` on the truthy `last_attempt` strings of a rollup's chunks. -/
def strMaxD (l : List String) : Option String :=
  l.foldl
    (fun acc s =>
      match acc with
      | none => some s
      | some t => if t < s then some s else some t) none

/-- The final pass of `group_chunks_by_file` (analytics.py lines 324-334):
per-file accuracy and the maximum truthy last-attempt timestamp. -/
def finalizeRollup (r : Rollup) : Rollup :=
  { r with
      accuracy :=
        if r.total_attempts > 0 then (r.total_correct : ℚ) / (r.total_attempts : ℚ) * 100 else 0,
      last_attempt :=
        strMaxD (r.chunks.filterMap
          (fun p => match p.2.last_attempt with
            | some t => if t ≠ "" then some t else none
            | none => none)) }

/-- `group_chunks_by_file` (analytics.py lines 247-336): backfill the file
mapping first, fold the main loop over the input entries (in its iteration
order), then compute per-file accuracy and last attempt.  Returns the updated
persisted state together with the files dictionary. -/
def group_chunks_by_file (st : State) (all_perf : List (String × Perf)) :
    State × List (String × Rollup) :=
  let st1 := backfill_file_mapping_from_chunks st
  let r := groupFold (st1, []) all_perf
  (r.1, r.2.map (fun p => (p.1, finalizeRollup p.2)))

/-- Invariant of the main aggregation loop after processing a prefix of the
input: the files dictionary has pairwise-distinct bucket keys, its three
totals sum to the corresponding sums over the processed entries, every chunk
key stored in a rollup belongs to that rollup's bucket, and every processed
entry is stored in its own bucket's rollup. -/
def InvP (files : List (String × Rollup)) (processed : List (String × Perf)) : Prop :=
  (files.map Prod.fst).Nodup
  ∧ (files.map (fun p => p.2.total_attempts)).sum
      = (processed.map (fun e => e.2.attempts)).sum
  ∧ (files.map (fun p => p.2.total_correct)).sum
      = (processed.map (fun e => e.2.correct)).sum
  ∧ (files.map (fun p => p.2.total_incorrect)).sum
      = (processed.map (fun e => e.2.incorrect)).sum
  ∧ (∀ p ∈ files, ∀ q, (alLookup p.2.chunks q).isSome = true → bucketOf q = p.1)
  ∧ (∀ e ∈ processed, ∃ r, alLookup files (bucketOf e.1) = some r
      ∧ (alLookup r.chunks e.1).isSome = true)

/-- Python `\s` (whitespace class) for the strings this module handles. -/
def isPySpace (c : Char) : Bool :=
  c = ' ' ∨ c = '\t' ∨ c = '\n' ∨ c = '\r' ∨ c = '\x0b' ∨ c = '\x0c'

/-- `re.search(r'[Cc]hunk\s*(\d+)', s)` (analytics.py line 460 and line 498):
scan left to right for `C` or `c` followed by lowercase `hunk`, then any
whitespace, then at least one digit; return the maximal digit run of the
first position where the whole pattern matches. -/
def findChunkNum : List Char → Option String
  | [] => none
  | c :: rest =>
    if (c = 'C' ∨ c = 'c') ∧ rest.take 4 = ['h', 'u', 'n', 'k'] then
      let digits := ((rest.drop 4).dropWhile isPySpace).takeWhile Char.isDigit
      if digits = [] then findChunkNum rest else some digits.asString
    else findChunkNum rest

/-- The chunk number extracted from a source reference: the regex capture,
or the literal `"unknown"` when the pattern does not match
(analytics.py lines 460-461). -/
def chunkNumOf (s : String) : String :=
  (findChunkNum s.toList).getD "unknown"

/-- The slug fallback of `extract_chunk_id_from_reference`
(analytics.py line 470): `source_reference[:50].replace(" ", "_").lower()`
(ASCII lowering, which covers the strings this module handles). -/
def slugOf (source_reference : String) : String :=
  ((source_reference.toList.take 50).map
    (fun c => if c = ' ' then '_' else c.toLower)).asString

/-- `extract_chunk_id_from_reference` (analytics.py lines 444-470), with the
md5-derived identifier abstract as `h`.  A `some ""` filename is falsy in
Python, so it takes the slug fallback. -/
def extract_chunk_id_from_reference (h : String → String) (source_reference : String)
    (filename : Option String) : String :=
  let chunk_num := chunkNumOf source_reference
  match filename with
  | some f => if f = "" then slugOf source_reference else h f ++ "_chunk_" ++ chunk_num
  | none => slugOf source_reference

/-- Matcher for the tail of `[Ee]XACT\s+quote\s*:` after the leading `E`/`e`
has been seen: uppercase `XACT`, at least one whitespace, lowercase `quote`,
any whitespace, then `:`.  Returns the remainder after the match. -/
def matchEQ (l : List Char) : Option (List Char) :=
  match l with
  | 'X' :: 'A' :: 'C' :: 'T' :: rest =>
    match rest with
    | c :: _ =>
      if isPySpace c then
        match rest.dropWhile isPySpace with
        | 'q' :: 'u' :: 'o' :: 't' :: 'e' :: rest2 =>
          match rest2.dropWhile isPySpace with
          | ':' :: rest3 => some rest3
          | _ => none
        | _ => none
      else none
    | [] => none
  | _ => none

/-- `re.sub(r'[Ee]XACT\s+quote\s*:', '', text)` (analytics.py line 494):
replace every non-overlapping leftmost match by the empty string.  Fuel is
the input length; every step consumes at least one character. -/
def subEQAux : Nat → List Char → List Char
  | 0, l => l
  | _ + 1, [] => []
  | n + 1, c :: rest =>
    if c = 'E' ∨ c = 'e' then
      match matchEQ rest with
      | some rest' => subEQAux n rest'
      | none => c :: subEQAux n rest
    else c :: subEQAux n rest

/-- Matcher for the tail of `quote\s*:` after the leading `q` has been seen. -/
def matchQ (l : List Char) : Option (List Char) :=
  match l with
  | 'u' :: 'o' :: 't' :: 'e' :: rest =>
    match rest.dropWhile isPySpace with
    | ':' :: rest2 => some rest2
    | _ => none
  | _ => none

/-- `re.sub(r'quote\s*:', '', text)` (analytics.py line 495). -/
def subQAux : Nat → List Char → List Char
  | 0, l => l
  | _ + 1, [] => []
  | n + 1, c :: rest =>
    if c = 'q' then
      match matchQ rest with
      | some rest' => subQAux n rest'
      | none => c :: subQAux n rest
    else c :: subQAux n rest

/-- Step 1 of `format_topic_name` (analytics.py lines 493-495): strip
`"EXACT quote:"`-style markers, then `"quote:"` markers. -/
def stripQuoteMarkers (s : String) : String :=
  let l1 := subEQAux s.toList.length s.toList
  (subQAux l1.length l1).asString

theorem alLookup_alSet_self {α : Type} (l : List (String × α)) (k : String) (v : α) :
    alLookup (alSet l k v) k = some v := by
  induction l with
  | nil => simp [alSet, alLookup]
  | cons p rest ih => by_cases h : p.1 = k <;> simp [alSet, alLookup, h, ih]

theorem alLookup_alSet_ne {α : Type} (l : List (String × α)) (k q : String) (v : α)
    (h : q ≠ k) : alLookup (alSet l k v) q = alLookup l q := by
  have hkq : ¬ (k = q) := fun hh => h hh.symm
  induction l with
  | nil => simp [alSet, alLookup, hkq]
  | cons p rest ih =>
    by_cases hp : p.1 = k
    · simp [alSet, alLookup, hp, hkq]
    · simp [alSet, alLookup, hp, ih]

theorem alLookup_none_iff {α : Type} (l : List (String × α)) (k : String) :
    alLookup l k = none ↔ k ∉ l.map Prod.fst := by
  induction l with
  | nil => simp [alLookup]
  | cons p rest ih =>
    by_cases hp : p.1 = k
    · simp [alLookup, hp, ih]
    · simp [alLookup, hp, ih]
      exact fun _ h => hp h.symm

theorem alLookup_some_mem {α : Type} (l : List (String × α)) (k : String) (v : α)
    (h : alLookup l k = some v) : (k, v) ∈ l := by
  induction l with
  | nil => simp [alLookup] at h
  | cons p rest ih =>
    by_cases hp : p.1 = k
    · simp [alLookup, hp] at h
      rw [← hp, ← h]
      simp
    · simp [alLookup, hp] at h
      exact List.mem_cons_of_mem _ (ih h)

theorem alLookup_alSet_isSome {α : Type} (l : List (String × α)) (k q : String) (v : α) :
    (alLookup (alSet l k v) q).isSome = true ↔ q = k ∨ (alLookup l q).isSome = true := by
  by_cases hq : q = k
  · subst hq
    simp [alLookup_alSet_self]
  · rw [alLookup_alSet_ne _ _ _ _ hq]
    simp [hq]

theorem mapFst_alSet_none {α : Type} (l : List (String × α)) (k : String) (v : α)
    (h : alLookup l k = none) : (alSet l k v).map Prod.fst = l.map Prod.fst ++ [k] := by
  induction l with
  | nil => simp [alSet]
  | cons p rest ih =>
    by_cases hp : p.1 = k
    · simp [alLookup, hp] at h
    · simp only [alLookup, hp, if_neg, ite_false] at h
      simp [alSet, hp, ih h]

theorem mapFst_alSet_some {α : Type} (l : List (String × α)) (k : String) (v w : α)
    (h : alLookup l k = some w) : (alSet l k v).map Prod.fst = l.map Prod.fst := by
  induction l with
  | nil => simp [alLookup] at h
  | cons p rest ih =>
    by_cases hp : p.1 = k
    · simp [alSet, hp]
    · simp only [alLookup, hp, ite_false] at h
      simp [alSet, hp, ih h]

theorem sum_map_alSet_none {α : Type} (g : String × α → Nat) (l : List (String × α))
    (k : String) (v : α) (h : alLookup l k = none) :
    ((alSet l k v).map g).sum = (l.map g).sum + g (k, v) := by
  induction l with
  | nil => simp [alSet]
  | cons p rest ih =>
    by_cases hp : p.1 = k
    · simp [alLookup, hp] at h
    · simp only [alLookup, hp, ite_false] at h
      simp [alSet, hp, ih h]
      omega

theorem sum_map_alSet_some {α : Type} (g : String × α → Nat) (l : List (String × α))
    (k : String) (v w : α) (h : alLookup l k = some w) :
    ((alSet l k v).map g).sum + g (k, w) = (l.map g).sum + g (k, v) := by
  induction l with
  | nil => simp [alLookup] at h
  | cons p rest ih =>
    by_cases hp : p.1 = k
    · simp only [alLookup, hp, ite_true, Option.some.injEq] at h
      subst hp
      rw [← h]
      simp [alSet]
      omega
    · simp only [alLookup, hp, ite_false] at h
      have := ih h
      simp [alSet, hp]
      omega

theorem mem_alSet_nodup {α : Type} (l : List (String × α)) (k : String) (v : α)
    (p : String × α) :
    (l.map Prod.fst).Nodup →
    (p ∈ alSet l k v ↔ p = (k, v) ∨ (p ∈ l ∧ p.1 ≠ k)) := by
  induction l with
  | nil =>
    intro _
    simp [alSet]
  | cons e rest ih =>
    intro hnd
    simp only [List.map_cons, List.nodup_cons] at hnd
    obtain ⟨hke, hnd'⟩ := hnd
    by_cases he : e.1 = k
    · rw [show alSet (e :: rest) k v = (k, v) :: rest by simp [alSet, he]]
      constructor
      · intro hm
        rcases List.mem_cons.1 hm with h | h
        · left; exact h
        · right
          refine ⟨List.mem_cons_of_mem _ h, ?_⟩
          intro hpk
          apply hke
          rw [he, ← hpk]
          exact List.mem_map_of_mem Prod.fst h
      · intro hm
        rcases hm with h | ⟨hmem, hne⟩
        · exact List.mem_cons.2 (Or.inl h)
        · rcases List.mem_cons.1 hmem with h' | h'
          · exact absurd (h' ▸ he) hne
          · exact List.mem_cons.2 (Or.inr h')
    · rw [show alSet (e :: rest) k v = e :: alSet rest k v by simp [alSet, he]]
      constructor
      · intro hm
        rcases List.mem_cons.1 hm with h | h
        · right
          exact ⟨by rw [h]; exact List.mem_cons_self _ _, by rw [h]; exact he⟩
        · rcases (ih hnd').1 h with h' | ⟨hmem, hne⟩
          · left; exact h'
          · right; exact ⟨List.mem_cons_of_mem _ hmem, hne⟩
      · intro hm
        rcases hm with h | ⟨hmem, hne⟩
        · exact List.mem_cons.2 (Or.inr ((ih hnd').2 (Or.inl h)))
        · rcases List.mem_cons.1 hmem with h' | h'
          · exact List.mem_cons.2 (Or.inl h')
          · exact List.mem_cons.2 (Or.inr ((ih hnd').2 (Or.inr ⟨h', hne⟩)))

theorem resolveFilenameLater_skeleton (st : State) (fh : String) (r : Rollup) :
    (resolveFilenameLater st fh r).chunks = r.chunks
    ∧ (resolveFilenameLater st fh r).total_attempts = r.total_attempts
    ∧ (resolveFilenameLater st fh r).total_correct = r.total_correct
    ∧ (resolveFilenameLater st fh r).total_incorrect = r.total_incorrect := by
  unfold resolveFilenameLater
  cases st.file_mapping with
  | none => exact ⟨rfl, rfl, rfl, rfl⟩
  | some m =>
    dsimp only
    by_cases hm : m ≠ []
    · rw [if_pos hm]
      cases alLookup m fh with
      | none => exact ⟨rfl, rfl, rfl, rfl⟩
      | some mf =>
        dsimp only
        by_cases hmf : mf ≠ ""
        · rw [if_pos hmf]
          exact ⟨rfl, rfl, rfl, rfl⟩
        · rw [if_neg hmf]
          exact ⟨rfl, rfl, rfl, rfl⟩
    · rw [if_neg hm]
      exact ⟨rfl, rfl, rfl, rfl⟩

theorem groupStep_spec (st : State) (files : List (String × Rollup)) (key : String)
    (pf : Perf) :
    ∃ st' r0,
      groupStep (st, files) (key, pf)
          = (st', alSet files (bucketOf key) (addChunk r0 key pf))
      ∧ r0.chunks = (match alLookup files (bucketOf key) with
          | none => ([] : List (String × Perf)) | some r => r.chunks)
      ∧ r0.total_attempts = (match alLookup files (bucketOf key) with
          | none => 0 | some r => r.total_attempts)
      ∧ r0.total_correct = (match alLookup files (bucketOf key) with
          | none => 0 | some r => r.total_correct)
      ∧ r0.total_incorrect = (match alLookup files (bucketOf key) with
          | none => 0 | some r => r.total_incorrect) := by
  cases hl : alLookup files (bucketOf key) with
  | none =>
    refine ⟨st, freshRollup st (bucketOf key) pf, ?_, rfl, rfl, rfl, rfl⟩
    simp [groupStep, hl]
  | some r =>
    by_cases h1 : strTruthy pf.filename = true ∧ strTruthy r.filename = false
    · refine ⟨writeBackRegister st (bucketOf key) pf.filename,
        { r with filename := pf.filename }, ?_, rfl, rfl, rfl, rfl⟩
      simp [groupStep, hl, h1]
    · by_cases h2 : strTruthy r.filename = false ∨ r.filename = some "unknown_file"
      · obtain ⟨hc, ht1, ht2, ht3⟩ := resolveFilenameLater_skeleton st (bucketOf key) r
        refine ⟨st, resolveFilenameLater st (bucketOf key) r, ?_, by rw [hc],
          by rw [ht1], by rw [ht2], by rw [ht3]⟩
        simp [groupStep, hl, h1, h2]
      · refine ⟨st, r, ?_, rfl, rfl, rfl, rfl⟩
        simp [groupStep, hl, h1, h2]

theorem groupStep_state (st : State) (files : List (String × Rollup)) (e : String × Perf) :
    (groupStep (st, files) e).1 = st
    ∨ ∃ fh fn, fn ≠ "unknown_file" ∧ fn ≠ ""
        ∧ (groupStep (st, files) e).1 = autoRegister st fh fn := by
  cases hl : alLookup files (bucketOf e.1) with
  | none => left; simp [groupStep, hl]
  | some r =>
    by_cases h1 : strTruthy e.2.filename = true ∧ strTruthy r.filename = false
    · rw [show (groupStep (st, files) e).1 = writeBackRegister st (bucketOf e.1) e.2.filename
        by simp [groupStep, hl, h1]]
      unfold writeBackRegister
      cases e.2.filename with
      | none => left; rfl
      | some s =>
        by_cases hs : s ≠ "" ∧ s ≠ "unknown_file"
        · right
          exact ⟨bucketOf e.1, s, hs.2, hs.1, by simp [hs]⟩
        · left
          simp [hs]
    · by_cases h2 : strTruthy r.filename = false ∨ r.filename = some "unknown_file"
      · left; simp [groupStep, hl, h1, h2]
      · left; simp [groupStep, hl, h1, h2]

theorem addChunk_total_attempts (r : Rollup) (k : String) (v : Perf) :
    (addChunk r k v).total_attempts = r.total_attempts + v.attempts := rfl

theorem addChunk_total_correct (r : Rollup) (k : String) (v : Perf) :
    (addChunk r k v).total_correct = r.total_correct + v.correct := rfl

theorem addChunk_total_incorrect (r : Rollup) (k : String) (v : Perf) :
    (addChunk r k v).total_incorrect = r.total_incorrect + v.incorrect := rfl

theorem InvP_step (st : State) (files : List (String × Rollup))
    (processed : List (String × Perf)) (key : String) (pf : Perf)
    (hfresh : key ∉ processed.map Prod.fst)
    (hinv : InvP files processed) :
    InvP (groupStep (st, files) (key, pf)).2 (processed ++ [(key, pf)]) := by
  obtain ⟨hnd, hsa, hsc, hsi, hsound, hcomp⟩ := hinv
  obtain ⟨st', r0, hstep, hch, hta, htc, hti⟩ := groupStep_spec st files key pf
  rw [hstep]
  have hne_key : ∀ e ∈ processed, e.1 ≠ key := by
    intro e he h1
    exact hfresh (h1 ▸ List.mem_map_of_mem Prod.fst he)
  cases hl : alLookup files (bucketOf key) with
  | none =>
    rw [hl] at hch hta htc hti
    have hnotin : bucketOf key ∉ files.map Prod.fst := (alLookup_none_iff _ _).1 hl
    refine ⟨?_, ?_, ?_, ?_, ?_, ?_⟩
    · rw [mapFst_alSet_none _ _ _ hl]
      rw [List.nodup_append]
      exact ⟨hnd, List.nodup_singleton _, by
        intro a ha hb
        simp at hb
        exact hnotin (hb ▸ ha)⟩
    · rw [sum_map_alSet_none (fun p => p.2.total_attempts) files (bucketOf key)
        (addChunk r0 key pf) hl]
      simp [addChunk, hta, hsa]
    · rw [sum_map_alSet_none (fun p => p.2.total_correct) files (bucketOf key)
        (addChunk r0 key pf) hl]
      simp [addChunk, htc, hsc]
    · rw [sum_map_alSet_none (fun p => p.2.total_incorrect) files (bucketOf key)
        (addChunk r0 key pf) hl]
      simp [addChunk, hti, hsi]
    · intro p hp q hq
      rcases (mem_alSet_nodup files (bucketOf key) (addChunk r0 key pf) p hnd).1 hp with
        h | ⟨hmem, _⟩
      · subst h
        rcases (alLookup_alSet_isSome r0.chunks key q pf).1 hq with h' | h'
        · rw [h']
        · rw [hch] at h'
          simp [alLookup] at h'
      · exact hsound p hmem q hq
    · intro e he
      rcases List.mem_append.1 he with h | h
      · obtain ⟨r, hr, hcq⟩ := hcomp e h
        have hneb : bucketOf e.1 ≠ bucketOf key := by
          intro hb
          rw [hb, hl] at hr
          exact Option.noConfusion hr
        exact ⟨r, by rw [alLookup_alSet_ne _ _ _ _ hneb]; exact hr, hcq⟩
      · have he' : e = (key, pf) := by simpa using h
        subst he'
        refine ⟨addChunk r0 key pf, alLookup_alSet_self _ _ _, ?_⟩
        have : alLookup (alSet r0.chunks key pf) key = some pf := alLookup_alSet_self _ _ _
        rw [show (addChunk r0 key pf).chunks = alSet r0.chunks key pf from rfl, this]
        rfl
  | some r =>
    rw [hl] at hch hta htc hti
    dsimp only at hch hta htc hti
    refine ⟨?_, ?_, ?_, ?_, ?_, ?_⟩
    · rw [mapFst_alSet_some _ _ _ _ hl]
      exact hnd
    · have hs := sum_map_alSet_some (fun p => p.2.total_attempts) files (bucketOf key)
        (addChunk r0 key pf) r hl
      simp only [addChunk_total_attempts, hta] at hs
      simp [List.map_append]
      omega
    · have hs := sum_map_alSet_some (fun p => p.2.total_correct) files (bucketOf key)
        (addChunk r0 key pf) r hl
      simp only [addChunk_total_correct, htc] at hs
      simp [List.map_append]
      omega
    · have hs := sum_map_alSet_some (fun p => p.2.total_incorrect) files (bucketOf key)
        (addChunk r0 key pf) r hl
      simp only [addChunk_total_incorrect, hti] at hs
      simp [List.map_append]
      omega
    · intro p hp q hq
      rcases (mem_alSet_nodup files (bucketOf key) (addChunk r0 key pf) p hnd).1 hp with
        h | ⟨hmem, _⟩
      · subst h
        rcases (alLookup_alSet_isSome r0.chunks key q pf).1 hq with h' | h'
        · rw [h']
        · rw [hch] at h'
          exact hsound (bucketOf key, r) (alLookup_some_mem files (bucketOf key) r hl) q h'
      · exact hsound p hmem q hq
    · intro e he
      rcases List.mem_append.1 he with h | h
      · obtain ⟨r', hr', hcq⟩ := hcomp e h
        by_cases hb : bucketOf e.1 = bucketOf key
        · rw [hb, hl] at hr'
          injection hr' with hr'
          subst hr'
          refine ⟨addChunk r0 key pf, by rw [hb]; exact alLookup_alSet_self _ _ _, ?_⟩
          rw [show (addChunk r0 key pf).chunks = alSet r0.chunks key pf from rfl]
          rw [alLookup_alSet_ne _ _ _ _ (hne_key e h), hch]
          exact hcq
        · exact ⟨r', by rw [alLookup_alSet_ne _ _ _ _ hb]; exact hr', hcq⟩
      · have he' : e = (key, pf) := by simpa using h
        subst he'
        refine ⟨addChunk r0 key pf, alLookup_alSet_self _ _ _, ?_⟩
        have : alLookup (alSet r0.chunks key pf) key = some pf := alLookup_alSet_self _ _ _
        rw [show (addChunk r0 key pf).chunks = alSet r0.chunks key pf from rfl, this]
        rfl

theorem InvP_fold (l : List (String × Perf)) :
    ∀ (st : State) (files : List (String × Rollup)) (processed : List (String × Perf)),
      ((processed ++ l).map Prod.fst).Nodup →
      InvP files processed →
      InvP (groupFold (st, files) l).2 (processed ++ l) := by
  induction l with
  | nil =>
    intro st files processed _ hinv
    simpa using hinv
  | cons e l ih =>
    intro st files processed hnd hinv
    obtain ⟨key, pf⟩ := e
    have hfresh : key ∉ processed.map Prod.fst := by
      intro hm
      rw [List.map_append] at hnd
      have hdisj := (List.nodup_append.mp hnd).2.2
      exact hdisj hm (by simp)
    have hstep := InvP_step st files processed key pf hfresh hinv
    have hnd' : (((processed ++ [(key, pf)]) ++ l).map Prod.fst).Nodup := by
      simpa [List.append_assoc] using hnd
    have hmain := ih (groupStep (st, files) (key, pf)).1 (groupStep (st, files) (key, pf)).2
      (processed ++ [(key, pf)]) hnd' hstep
    simpa [List.append_assoc] using hmain

theorem mapFst_map_finalize (l : List (String × Rollup)) :
    (l.map (fun p => (p.1, finalizeRollup p.2))).map Prod.fst = l.map Prod.fst := by
  induction l with
  | nil => rfl
  | cons p rest ih => simp [ih]

theorem alLookup_map_finalize (l : List (String × Rollup)) (b : String) :
    alLookup (l.map (fun p => (p.1, finalizeRollup p.2))) b
      = (alLookup l b).map finalizeRollup := by
  induction l with
  | nil => rfl
  | cons p rest ih => by_cases hp : p.1 = b <;> simp [alLookup, hp, ih]

theorem finalizeRollup_chunks (r : Rollup) : (finalizeRollup r).chunks = r.chunks := rfl

theorem sum_map_map_finalize (g : Rollup → Nat) (hg : ∀ r, g (finalizeRollup r) = g r)
    (l : List (String × Rollup)) :
    ((l.map (fun p => (p.1, finalizeRollup p.2))).map (fun p => g p.2)).sum
      = (l.map (fun p => g p.2)).sum := by
  induction l with
  | nil => rfl
  | cons p rest ih =>
    simp only [List.map_cons, List.sum_cons, hg]
    rw [ih]

/-- Claim C1: `group_chunks_by_file` partitions its input — the rollups'
`total_attempts`, `total_correct` and `total_incorrect` sum to the input
sums, and every input chunk key appears in the chunk map of exactly one
rollup, the one keyed by the prefix before the first `"_chunk_"` (or by the
synthetic bucket `"unknown"` when the key lacks that substring), as computed
by `bucketOf`. -/
theorem group_chunks_by_file_partition (st : State) (all_perf : List (String × Perf))
    (hnd : (all_perf.map Prod.fst).Nodup) :
    ((group_chunks_by_file st all_perf).2.map Prod.fst).Nodup
    ∧ ((group_chunks_by_file st all_perf).2.map (fun p => p.2.total_attempts)).sum
        = (all_perf.map (fun e => e.2.attempts)).sum
    ∧ ((group_chunks_by_file st all_perf).2.map (fun p => p.2.total_correct)).sum
        = (all_perf.map (fun e => e.2.correct)).sum
    ∧ ((group_chunks_by_file st all_perf).2.map (fun p => p.2.total_incorrect)).sum
        = (all_perf.map (fun e => e.2.incorrect)).sum
    ∧ ∀ e ∈ all_perf,
        (∃ r, alLookup (group_chunks_by_file st all_perf).2 (bucketOf e.1) = some r
          ∧ (alLookup r.chunks e.1).isSome = true)
        ∧ ∀ p ∈ (group_chunks_by_file st all_perf).2,
            (alLookup p.2.chunks e.1).isSome = true → p.1 = bucketOf e.1 := by
  have hbase : InvP [] [] := by
    refine ⟨List.nodup_nil, rfl, rfl, rfl, ?_, ?_⟩ <;> intro p hp <;> simp at hp
  have hinv := InvP_fold all_perf (backfill_file_mapping_from_chunks st) [] []
    (by simpa using hnd) hbase
  rw [List.nil_append] at hinv
  obtain ⟨hnd2, hta, htc, hti, hsound, hcomp⟩ := hinv
  have hgrp : (group_chunks_by_file st all_perf).2
      = ((groupFold (backfill_file_mapping_from_chunks st, []) all_perf).2).map
          (fun p => (p.1, finalizeRollup p.2)) := rfl
  refine ⟨?_, ?_, ?_, ?_, ?_⟩
  · rw [hgrp, mapFst_map_finalize]
    exact hnd2
  · rw [hgrp]
    rw [sum_map_map_finalize (fun r => r.total_attempts) (fun r => rfl)]
    exact hta
  · rw [hgrp]
    rw [sum_map_map_finalize (fun r => r.total_correct) (fun r => rfl)]
    exact htc
  · rw [hgrp]
    rw [sum_map_map_finalize (fun r => r.total_incorrect) (fun r => rfl)]
    exact hti
  · intro e he
    constructor
    · obtain ⟨r, hr, hcq⟩ := hcomp e he
      refine ⟨finalizeRollup r, ?_, ?_⟩
      · rw [hgrp, alLookup_map_finalize, hr]
        rfl
      · rw [finalizeRollup_chunks]
        exact hcq
    · intro p hp hq
      rw [hgrp] at hp
      obtain ⟨q0, hq0, hq0e⟩ := List.mem_map.1 hp
      have h1 : p.1 = q0.1 := by rw [← hq0e]
      have h2 : p.2.chunks = q0.2.chunks := by rw [← hq0e, finalizeRollup_chunks]
      rw [h2] at hq
      rw [h1]
      exact (hsound q0 hq0 e.1 hq).symm

theorem group_chunks_by_file_partition_witness :
    (((group_chunks_by_file ⟨none, none⟩
        [("fa_chunk_1", { attempts := 2, correct := 1, incorrect := 1 }),
         ("loose", { attempts := 1, correct := 0, incorrect := 1 })]).2.map Prod.fst).Nodup)
    ∧ ((group_chunks_by_file ⟨none, none⟩
        [("fa_chunk_1", { attempts := 2, correct := 1, incorrect := 1 }),
         ("loose", { attempts := 1, correct := 0, incorrect := 1 })]).2.map
          (fun p => p.2.total_attempts)).sum = 3
    ∧ ((group_chunks_by_file ⟨none, none⟩
        [("fa_chunk_1", { attempts := 2, correct := 1, incorrect := 1 }),
         ("loose", { attempts := 1, correct := 0, incorrect := 1 })]).2.map
          (fun p => p.2.total_correct)).sum = 1
    ∧ ((group_chunks_by_file ⟨none, none⟩
        [("fa_chunk_1", { attempts := 2, correct := 1, incorrect := 1 }),
         ("loose", { attempts := 1, correct := 0, incorrect := 1 })]).2.map
          (fun p => p.2.total_incorrect)).sum = 2
    ∧ ∀ e ∈ [(("fa_chunk_1" : String),
          ({ attempts := 2, correct := 1, incorrect := 1 } : Perf)),
         ("loose", { attempts := 1, correct := 0, incorrect := 1 })],
        (∃ r, alLookup (group_chunks_by_file ⟨none, none⟩
            [("fa_chunk_1", { attempts := 2, correct := 1, incorrect := 1 }),
             ("loose", { attempts := 1, correct := 0, incorrect := 1 })]).2 (bucketOf e.1)
              = some r
          ∧ (alLookup r.chunks e.1).isSome = true)
        ∧ ∀ p ∈ (group_chunks_by_file ⟨none, none⟩
            [("fa_chunk_1", { attempts := 2, correct := 1, incorrect := 1 }),
             ("loose", { attempts := 1, correct := 0, incorrect := 1 })]).2,
            (alLookup p.2.chunks e.1).isSome = true → p.1 = bucketOf e.1 :=
  group_chunks_by_file_partition ⟨none, none⟩
    [("fa_chunk_1", { attempts := 2, correct := 1, incorrect := 1 }),
     ("loose", { attempts := 1, correct := 0, incorrect := 1 })] (by decide)

theorem record_quiz_answer_lookup (st : State) (key src : String) (ic : Bool) (qt : String)
    (fn : Option String) (now : String) (hk : key ≠ "") :
    alLookup ((record_quiz_answer st key src ic qt fn now).chunk_performance.getD []) key
      = some (stepPerf (alLookup (st.chunk_performance.getD []) key) src ic qt fn now) := by
  simp [record_quiz_answer, hk, alLookup_alSet_self]

theorem recordMany_lookup (calls : List Call) : ∀ (st : State) (key src : String), key ≠ "" →
    alLookup ((recordMany st key src calls).chunk_performance.getD []) key
      = iterPerf (alLookup (st.chunk_performance.getD []) key) src calls := by
  induction calls with
  | nil => intro st key src _; rfl
  | cons c cs ih =>
    intro st key src hk
    have h1 := record_quiz_answer_lookup st key src c.is_correct c.question_text c.filename
      c.now hk
    have h2 := ih (record_quiz_answer st key src c.is_correct c.question_text c.filename c.now)
      key src hk
    calc alLookup ((recordMany st key src (c :: cs)).chunk_performance.getD []) key
        = iterPerf (alLookup ((record_quiz_answer st key src c.is_correct c.question_text
            c.filename c.now).chunk_performance.getD []) key) src cs := h2
      _ = iterPerf (some (stepPerf (alLookup (st.chunk_performance.getD []) key) src
            c.is_correct c.question_text c.filename c.now)) src cs := by rw [h1]
      _ = iterPerf (alLookup (st.chunk_performance.getD []) key) src (c :: cs) := rfl

theorem stepPerf_counters (o : Option Perf) (src : String) (ic : Bool) (qt : String)
    (fn : Option String) (now : String) :
    (stepPerf o src ic qt fn now).attempts
        = (match o with | none => 0 | some p => p.attempts) + 1
    ∧ (stepPerf o src ic qt fn now).correct
        = (match o with | none => 0 | some p => p.correct) + (if ic then 1 else 0)
    ∧ (stepPerf o src ic qt fn now).incorrect
        = (match o with | none => 0 | some p => p.incorrect) + (if ic then 0 else 1) := by
  cases o with
  | none => by_cases hq : qt = "" <;> simp [stepPerf, hq]
  | some p =>
    by_cases hq : qt = "" <;> simp [stepPerf, hq] <;>
      refine ⟨?_, ?_, ?_⟩ <;> split <;> simp

theorem iterPerf_counters (src : String) (calls : List Call) : ∀ (p : Perf),
    ∃ p', iterPerf (some p) src calls = some p'
      ∧ p'.attempts = p.attempts + calls.length
      ∧ p'.correct = p.correct + (calls.filter (fun c => c.is_correct)).length
      ∧ p'.incorrect = p.incorrect + (calls.filter (fun c => !c.is_correct)).length := by
  induction calls with
  | nil => intro p; exact ⟨p, rfl, by simp, by simp, by simp⟩
  | cons c cs ih =>
    intro p
    obtain ⟨p', hEq, ha, hc, hi⟩ :=
      ih (stepPerf (some p) src c.is_correct c.question_text c.filename c.now)
    have hsa := stepPerf_counters (some p) src c.is_correct c.question_text c.filename c.now
    refine ⟨p', hEq, ?_, ?_, ?_⟩
    · rw [ha, hsa.1]
      simp
      omega
    · rw [hc, hsa.2.1]
      by_cases hic : c.is_correct <;> simp [List.filter_cons, hic] <;> omega
    · rw [hi, hsa.2.2]
      by_cases hic : c.is_correct <;> simp [List.filter_cons, hic] <;> omega

theorem length_filter_not_correct (calls : List Call) :
    (calls.filter (fun c => !c.is_correct)).length
      = calls.length - (calls.filter (fun c => c.is_correct)).length := by
  induction calls with
  | nil => rfl
  | cons c cs ih =>
    have hle := List.length_filter_le (fun c : Call => c.is_correct) cs
    by_cases hic : c.is_correct <;> simp [List.filter_cons, hic, ih] <;> omega

/-- Claim C3: starting from a state where the key is absent, after a sequence
of `record_quiz_answer` calls for that key of which `k` had `is_correct`,
the stored record shows `attempts = N`, `correct = k`, `incorrect = N - k`;
and a single `record_quiz_answer` call preserves the invariant
`attempts = correct + incorrect` across the whole ledger. -/
theorem record_quiz_answer_counts (st : State) (key src : String) (calls : List Call)
    (hk : key ≠ "") (h0 : alLookup (st.chunk_performance.getD []) key = none) :
    countsAt (recordMany st key src calls) key
      = (calls.length, (calls.filter (fun c => c.is_correct)).length,
         calls.length - (calls.filter (fun c => c.is_correct)).length)
    ∧ (∀ (st' : State) (cid src' : String) (ic : Bool) (qt : String) (fn : Option String)
        (now : String),
        (∀ q p, alLookup (st'.chunk_performance.getD []) q = some p →
          p.attempts = p.correct + p.incorrect) →
        (∀ q p,
          alLookup ((record_quiz_answer st' cid src' ic qt fn now).chunk_performance.getD []) q
            = some p → p.attempts = p.correct + p.incorrect)) := by
  constructor
  · cases calls with
    | nil => simp [countsAt, recordMany, h0]
    | cons c cs =>
      have hml := recordMany_lookup (c :: cs) st key src hk
      rw [h0] at hml
      obtain ⟨p', hEq, ha, hc, hi⟩ :=
        iterPerf_counters src cs (stepPerf none src c.is_correct c.question_text c.filename c.now)
      have hml' : alLookup ((recordMany st key src (c :: cs)).chunk_performance.getD []) key
          = some p' := by rw [hml]; exact hEq
      have hsa := stepPerf_counters none src c.is_correct c.question_text c.filename c.now
      have hfn := length_filter_not_correct (c :: cs)
      have hfn' := length_filter_not_correct cs
      have hle := List.length_filter_le (fun c : Call => c.is_correct) cs
      have h1 : p'.attempts = (c :: cs).length := by rw [ha, hsa.1]; simp <;> omega
      have h2 : p'.correct = ((c :: cs).filter (fun c => c.is_correct)).length := by
        rw [hc, hsa.2.1]
        by_cases hic : c.is_correct <;> simp [List.filter_cons, hic] <;> omega
      have h3 : p'.incorrect
          = (c :: cs).length - ((c :: cs).filter (fun c => c.is_correct)).length := by
        rw [hi, hsa.2.2, ← hfn]
        by_cases hic : c.is_correct <;> simp [List.filter_cons, hic, hfn'] <;> omega
      simp [countsAt, hml', h1, h2, h3]
  · intro st' cid src' ic qt fn now hinv q p hq
    have hq' : alLookup (alSet (st'.chunk_performance.getD [])
        (if cid = "" then src' else cid)
        (stepPerf (alLookup (st'.chunk_performance.getD []) (if cid = "" then src' else cid))
          src' ic qt fn now)) q = some p := hq
    by_cases hqk : q = (if cid = "" then src' else cid)
    · rw [hqk, alLookup_alSet_self] at hq'
      injection hq' with hpe
      subst hpe
      have hsa := stepPerf_counters
        (alLookup (st'.chunk_performance.getD []) (if cid = "" then src' else cid))
        src' ic qt fn now
      rw [hsa.1, hsa.2.1, hsa.2.2]
      cases ho : alLookup (st'.chunk_performance.getD []) (if cid = "" then src' else cid) with
      | none => cases ic <;> simp
      | some p0 =>
        have hp0 := hinv _ p0 ho
        cases ic <;> simp <;> omega
    · rw [alLookup_alSet_ne _ _ _ _ hqk] at hq'
      exact hinv q p hq'

theorem record_quiz_answer_counts_witness :
    countsAt (recordMany ⟨none, none⟩ "k" "s"
      [⟨true, "", none, "t1"⟩, ⟨false, "", none, "t2"⟩, ⟨true, "", none, "t3"⟩]) "k"
      = (3, 2, 1) :=
  (record_quiz_answer_counts ⟨none, none⟩ "k" "s"
    [⟨true, "", none, "t1"⟩, ⟨false, "", none, "t2"⟩, ⟨true, "", none, "t3"⟩]
    (by decide) rfl).1

theorem trim_eq_lastN {α : Type} (n : Nat) (qs : List α) :
    (if qs.length > n then qs.drop (qs.length - n) else qs) = lastN n qs := by
  unfold lastN
  by_cases h : qs.length > n
  · simp [h]
  · have h0 : qs.length - n = 0 := by omega
    simp [h, h0]

theorem lastN_length {α : Type} (n : Nat) (l : List α) :
    (lastN n l).length = min l.length n := by
  simp [lastN]
  omega

theorem lastN_append_one {α : Type} (n : Nat) (l : List α) (e : α) :
    lastN n (lastN n l ++ [e]) = lastN n (l ++ [e]) := by
  unfold lastN
  rw [← List.drop_append_of_le_length (by omega)]
  rw [List.drop_drop]
  congr 1
  simp
  omega

theorem trim_eq_lastN_app {α : Type} (l : List α) (e : α) :
    (if 10 < l.length + 1 then List.drop (l.length - 9) (l ++ [e]) else l ++ [e])
      = lastN 10 (l ++ [e]) := by
  unfold lastN
  by_cases h : 10 < l.length + 1
  · simp only [h, if_true]
    congr 1
    simp
  · have h0 : (l ++ [e]).length - 10 = 0 := by simp; omega
    simp only [h, if_false]
    rw [h0]
    simp

theorem stepPerf_questions (o : Option Perf) (src : String) (ic : Bool) (qt : String)
    (fn : Option String) (now : String) :
    (stepPerf o src ic qt fn now).questions
      = (if qt = "" then (match o with | none => [] | some p => p.questions)
         else lastN 10 ((match o with | none => ([] : List QEntry) | some p => p.questions)
            ++ [⟨pyTake 200 qt, ic, now⟩])) := by
  cases o with
  | none =>
    by_cases hq : qt = ""
    · simp [stepPerf, hq]
    · simp [stepPerf, hq, lastN]
  | some p =>
    by_cases hq : qt = ""
    · simp [stepPerf, hq]
      split <;> simp
    · simp [stepPerf, hq]
      split <;> exact trim_eq_lastN_app p.questions ⟨pyTake 200 qt, ic, now⟩

theorem qEntries_cons (c : Call) (cs : List Call) :
    qEntries (c :: cs)
      = (if c.question_text = "" then [] else [⟨pyTake 200 c.question_text, c.is_correct, c.now⟩])
        ++ qEntries cs := by
  by_cases hq : c.question_text = "" <;> simp [qEntries, List.filter_cons, hq]

theorem qEntries_bound (calls : List Call) :
    ∀ q ∈ qEntries calls, q.question.toList.length ≤ 200 := by
  intro q hq
  simp [qEntries] at hq
  obtain ⟨c, _, rfl⟩ := hq
  simp [pyTake]

theorem iterPerf_questions (src : String) (calls : List Call) : ∀ (p : Perf) (es : List QEntry),
    p.questions = lastN 10 es →
    ∃ p', iterPerf (some p) src calls = some p'
      ∧ p'.questions = lastN 10 (es ++ qEntries calls) := by
  induction calls with
  | nil =>
    intro p es hp
    exact ⟨p, rfl, by simpa [qEntries] using hp⟩
  | cons c cs ih =>
    intro p es hp
    by_cases hqt : c.question_text = ""
    · have hq1 : (stepPerf (some p) src c.is_correct c.question_text c.filename c.now).questions
          = lastN 10 es := by
        rw [stepPerf_questions]
        simp only [if_pos hqt]
        exact hp
      obtain ⟨p', hEq, hqs⟩ :=
        ih (stepPerf (some p) src c.is_correct c.question_text c.filename c.now) es hq1
      refine ⟨p', hEq, ?_⟩
      rw [hqs, qEntries_cons]
      simp [hqt]
    · have hq1 : (stepPerf (some p) src c.is_correct c.question_text c.filename c.now).questions
          = lastN 10 (es ++ [⟨pyTake 200 c.question_text, c.is_correct, c.now⟩]) := by
        rw [stepPerf_questions]
        simp only [if_neg hqt]
        rw [hp, lastN_append_one]
      obtain ⟨p', hEq, hqs⟩ := ih _ _ hq1
      refine ⟨p', hEq, ?_⟩
      rw [hqs, qEntries_cons]
      simp [hqt]

/-- Claim C4: after any sequence of `record_quiz_answer` calls for one fresh
key, of which `n` had non-empty question text, the record's question list is
exactly the entries of the last `min n 10` such calls in order (oldest
evicted first), and every stored question text has at most 200 characters. -/
theorem record_quiz_answer_question_history (st : State) (key src : String) (calls : List Call)
    (hk : key ≠ "") (h0 : alLookup (st.chunk_performance.getD []) key = none)
    (hne : calls ≠ []) :
    ∃ p, alLookup ((recordMany st key src calls).chunk_performance.getD []) key = some p
      ∧ p.questions = lastN 10 (qEntries calls)
      ∧ p.questions.length = min (qEntries calls).length 10
      ∧ (qEntries calls).length = (calls.filter (fun c => c.question_text != "")).length
      ∧ (∀ q ∈ p.questions, q.question.toList.length ≤ 200) := by
  cases calls with
  | nil => exact absurd rfl hne
  | cons c cs =>
    have hml := recordMany_lookup (c :: cs) st key src hk
    rw [h0] at hml
    have hq1 : (stepPerf none src c.is_correct c.question_text c.filename c.now).questions
        = lastN 10 (qEntries [c]) := by
      rw [stepPerf_questions]
      by_cases hqt : c.question_text = "" <;>
        simp [hqt, qEntries, List.filter_cons, lastN]
    obtain ⟨p', hEq, hqs⟩ :=
      iterPerf_questions src cs (stepPerf none src c.is_correct c.question_text c.filename c.now)
        (qEntries [c]) hq1
    have hml' : alLookup ((recordMany st key src (c :: cs)).chunk_performance.getD []) key
        = some p' := by rw [hml]; exact hEq
    have hcat : qEntries [c] ++ qEntries cs = qEntries (c :: cs) := by
      rw [qEntries_cons]
      by_cases hqt : c.question_text = "" <;> simp [hqt, qEntries]
    rw [hcat] at hqs
    refine ⟨p', hml', hqs, ?_, ?_, ?_⟩
    · rw [hqs, lastN_length]
    · simp [qEntries]
    · intro q hq
      apply qEntries_bound (c :: cs)
      rw [hqs] at hq
      exact List.drop_subset _ _ hq

theorem record_quiz_answer_question_history_witness :
    ∃ p, alLookup ((recordMany ⟨none, none⟩ "k" "s"
        [⟨true, "q1", none, "t1"⟩, ⟨false, "q2", none, "t2"⟩, ⟨true, "q3", none, "t3"⟩,
         ⟨true, "q4", none, "t4"⟩, ⟨false, "q5", none, "t5"⟩, ⟨true, "q6", none, "t6"⟩,
         ⟨true, "q7", none, "t7"⟩, ⟨false, "q8", none, "t8"⟩, ⟨true, "q9", none, "t9"⟩,
         ⟨true, "q10", none, "t10"⟩, ⟨false, "q11", none, "t11"⟩, ⟨true, "q12", none, "t12"⟩]
      ).chunk_performance.getD []) "k" = some p
      ∧ p.questions = lastN 10 (qEntries
        [⟨true, "q1", none, "t1"⟩, ⟨false, "q2", none, "t2"⟩, ⟨true, "q3", none, "t3"⟩,
         ⟨true, "q4", none, "t4"⟩, ⟨false, "q5", none, "t5"⟩, ⟨true, "q6", none, "t6"⟩,
         ⟨true, "q7", none, "t7"⟩, ⟨false, "q8", none, "t8"⟩, ⟨true, "q9", none, "t9"⟩,
         ⟨true, "q10", none, "t10"⟩, ⟨false, "q11", none, "t11"⟩, ⟨true, "q12", none, "t12"⟩])
      ∧ p.questions.length = 10
      ∧ (qEntries
        [⟨true, "q1", none, "t1"⟩, ⟨false, "q2", none, "t2"⟩, ⟨true, "q3", none, "t3"⟩,
         ⟨true, "q4", none, "t4"⟩, ⟨false, "q5", none, "t5"⟩, ⟨true, "q6", none, "t6"⟩,
         ⟨true, "q7", none, "t7"⟩, ⟨false, "q8", none, "t8"⟩, ⟨true, "q9", none, "t9"⟩,
         ⟨true, "q10", none, "t10"⟩, ⟨false, "q11", none, "t11"⟩, ⟨true, "q12", none, "t12"⟩]
        ).length = 12
      ∧ (∀ q ∈ p.questions, q.question.toList.length ≤ 200) := by
  obtain ⟨p, h1, h2, h3, _, h5⟩ := record_quiz_answer_question_history ⟨none, none⟩ "k" "s"
    [⟨true, "q1", none, "t1"⟩, ⟨false, "q2", none, "t2"⟩, ⟨true, "q3", none, "t3"⟩,
     ⟨true, "q4", none, "t4"⟩, ⟨false, "q5", none, "t5"⟩, ⟨true, "q6", none, "t6"⟩,
     ⟨true, "q7", none, "t7"⟩, ⟨false, "q8", none, "t8"⟩, ⟨true, "q9", none, "t9"⟩,
     ⟨true, "q10", none, "t10"⟩, ⟨false, "q11", none, "t11"⟩, ⟨true, "q12", none, "t12"⟩]
    (by decide) rfl (by decide)
  exact ⟨p, h1, h2, by rw [h3]; decide, by decide, h5⟩

/-- Claim C2: `get_chunk_performance` returns zeroed metrics when the ledger
or the key is absent; otherwise its accuracy is `correct / attempts * 100`
for positive attempts and `0.0` for zero attempts, and the counters are
returned unchanged. -/
theorem get_chunk_performance_spec (st : State) (key : String) :
    (st.chunk_performance = none →
      get_chunk_performance st key =
        { correct := 0, incorrect := 0, attempts := 0, accuracy := 0,
          source_reference := "", last_attempt := none })
    ∧ (∀ cp, st.chunk_performance = some cp → alLookup cp key = none →
        get_chunk_performance st key =
          { correct := 0, incorrect := 0, attempts := 0, accuracy := 0,
            source_reference := "", last_attempt := none })
    ∧ (∀ cp p, st.chunk_performance = some cp → alLookup cp key = some p →
        (get_chunk_performance st key).accuracy =
          (if p.attempts > 0 then (p.correct : ℚ) / (p.attempts : ℚ) * 100 else 0)
        ∧ (get_chunk_performance st key).correct = p.correct
        ∧ (get_chunk_performance st key).incorrect = p.incorrect
        ∧ (get_chunk_performance st key).attempts = p.attempts) := by
  refine ⟨?_, ?_, ?_⟩
  · intro hnone
    simp [get_chunk_performance, hnone]
  · intro cp hcp hnone
    simp [get_chunk_performance, hcp, hnone]
  · intro cp p hcp hp
    simp [get_chunk_performance, hcp, hp]

theorem get_chunk_performance_spec_witness :
    get_chunk_performance ⟨none, none⟩ "k" =
      { correct := 0, incorrect := 0, attempts := 0, accuracy := 0,
        source_reference := "", last_attempt := none }
    ∧ (get_chunk_performance ⟨none, some [("k", { attempts := 4, correct := 3 })]⟩ "k").accuracy
        = 75 := by
  constructor
  · exact (get_chunk_performance_spec ⟨none, none⟩ "k").1 rfl
  · have h := (get_chunk_performance_spec
      ⟨none, some [("k", { attempts := 4, correct := 3 })]⟩ "k").2.2
      [("k", { attempts := 4, correct := 3 })] { attempts := 4, correct := 3 } rfl (by decide)
    rw [h.1]
    norm_num

/-- Claim C5: `register_file` is idempotent — the second registration of the
same filename returns the same identifier, leaves the state unchanged, and
performs no persistence write and emits no event. -/
theorem register_file_idempotent (h : String → String) (st : State) (f : String) :
    (register_file h (register_file h st f).2.1 f).1 = (register_file h st f).1
    ∧ (register_file h (register_file h st f).2.1 f).2.1 = (register_file h st f).2.1
    ∧ (register_file h (register_file h st f).2.1 f).2.2 = false := by
  cases hc : alLookup (st.file_mapping.getD []) (h f) with
  | none => simp [register_file, hc, alLookup_alSet_self]
  | some v => simp [register_file, hc]

/-- Claim C7 counterexample: `"CHUNK 3"` does not yield chunk number 3 — the
pattern `[Cc]hunk` requires lowercase `hunk`, so the number defaults to the
literal `"unknown"`. -/
theorem extract_chunk_id_case_counterexample :
    chunkNumOf "CHUNK 3" = "unknown"
    ∧ chunkNumOf "CHUNK 3" ≠ "3"
    ∧ extract_chunk_id_from_reference (fun _ => "aaaaaaaa") "CHUNK 3" (some "f.pdf")
        = "aaaaaaaa_chunk_unknown" := by decide

/-- Claim C7 amended: the chunk token is matched case-insensitively only in
its first letter (`[Cc]hunk`): `"Chunk 3"` and `"chunk 3"` yield 3, but
`"CHUNK 3"` falls back to the literal `"unknown"`; with a non-empty filename
the result is `{identifier}_chunk_{number}`. -/
theorem extract_chunk_id_case_amended :
    chunkNumOf "Chunk 3" = "3"
    ∧ chunkNumOf "chunk 3" = "3"
    ∧ chunkNumOf "Chunk3 - Intro" = "3"
    ∧ chunkNumOf "CHUNK 3" = "unknown"
    ∧ (∀ (h : String → String) (s f : String),
        extract_chunk_id_from_reference h s (some f) =
          if f = "" then slugOf s else h f ++ "_chunk_" ++ chunkNumOf s) := by
  refine ⟨by decide, by decide, by decide, by decide, ?_⟩
  intro h s f
  rfl

/-- Claim C8 counterexample: the slug of
`"Some free text without chunk marker"` is
`"some_free_text_without_chunk_marker"`, which does contain `"_chunk_"`, so
`group_chunks_by_file` buckets it under `"some_free_text_without"`, not
`"unknown"`. -/
theorem slug_fallback_counterexample :
    extract_chunk_id_from_reference (fun _ => "") "Some free text without chunk marker" none
      = "some_free_text_without_chunk_marker"
    ∧ containsSubstr "some_free_text_without_chunk_marker" "_chunk_" = true
    ∧ bucketOf "some_free_text_without_chunk_marker" = "some_free_text_without" := by decide

/-- Claim C8 amended: the slug fallback for
`"Some free text without chunk marker"` is the first 50 characters lowercased
with spaces replaced by underscores, but that slug contains `"_chunk_"`
(from `"without chunk marker"`), so `group_chunks_by_file` places it in the
bucket `"some_free_text_without"` rather than the `"unknown"` bucket. -/
theorem slug_fallback_amended :
    slugOf "Some free text without chunk marker" = "some_free_text_without_chunk_marker"
    ∧ extract_chunk_id_from_reference (fun _ => "") "Some free text without chunk marker" none
        = slugOf "Some free text without chunk marker"
    ∧ containsSubstr (slugOf "Some free text without chunk marker") "_chunk_" = true
    ∧ ((group_chunks_by_file ⟨none, none⟩
          [(slugOf "Some free text without chunk marker", { attempts := 1 })]).2.map
        (fun p => (p.1, p.2.chunks.map Prod.fst))) =
        [("some_free_text_without", ["some_free_text_without_chunk_marker"])] := by decide

/-- Claim C9 counterexample: with the marker written `"Exact quote:"`, step 1
of `format_topic_name` removes only the `"quote:"` part — the word `"Exact"`
survives in the working text, because the pattern `[Ee]XACT` requires the
remaining letters to be uppercase. -/
theorem strip_quote_markers_counterexample :
    stripQuoteMarkers "Exact quote: cloud basics" = "Exact  cloud basics"
    ∧ containsSubstr (stripQuoteMarkers "Exact quote: cloud basics") "Exact" = true := by decide

/-- Claim C9 amended: step 1 strips the full marker only for the casings
matched by `[Ee]XACT` (`"EXACT quote:"`, `"eXACT quote:"`); for other casings
such as `"Exact quote:"` or `"exact quote:"` only the `"quote:"` part is
removed and the `"exact"` word is left behind. -/
theorem strip_quote_markers_amended :
    stripQuoteMarkers "EXACT quote: cloud basics" = " cloud basics"
    ∧ stripQuoteMarkers "eXACT quote: cloud basics" = " cloud basics"
    ∧ stripQuoteMarkers "Exact quote: cloud basics" = "Exact  cloud basics"
    ∧ stripQuoteMarkers "exact quote: cloud basics" = "exact  cloud basics" := by decide

/-- Claim C10: with an empty `chunk_id`, `record_quiz_answer` silently uses
the `source_reference` string itself as the ledger key — the call behaves
exactly like a call whose chunk id is the source reference, and the update is
stored under that key. -/
theorem record_quiz_answer_empty_chunk_id (st : State) (src : String) (ic : Bool)
    (qt : String) (fn : Option String) (now : String) :
    record_quiz_answer st "" src ic qt fn now = record_quiz_answer st src src ic qt fn now
    ∧ (record_quiz_answer st "" src ic qt fn now).chunk_performance =
        some (alSet (st.chunk_performance.getD []) src
          (stepPerf (alLookup (st.chunk_performance.getD []) src) src ic qt fn now)) := by
  constructor
  · by_cases hsrc : src = "" <;> simp [record_quiz_answer, hsrc]
  · simp [record_quiz_answer]

theorem autoRegister_lookup (st : State) (fh fn : String) (k : String) (v : String)
    (h : alLookup ((autoRegister st fh fn).file_mapping.getD []) k = some v) :
    v = fn ∨ alLookup (st.file_mapping.getD []) k = some v := by
  by_cases hc : alLookup (st.file_mapping.getD []) fh = none
  · have e : (autoRegister st fh fn).file_mapping.getD []
        = alSet (st.file_mapping.getD []) fh fn := by
      simp only [autoRegister]
      rw [if_pos hc]
      rfl
    rw [e] at h
    by_cases hk : k = fh
    · subst hk
      rw [alLookup_alSet_self] at h
      injection h with h
      exact Or.inl h.symm
    · rw [alLookup_alSet_ne _ _ _ _ hk] at h
      exact Or.inr h
  · have e : autoRegister st fh fn = st := by
      simp only [autoRegister]
      rw [if_neg hc]
    rw [e] at h
    exact Or.inr h

theorem backfill_no_sentinel (st : State) (k : String)
    (h : alLookup ((backfill_file_mapping_from_chunks st).file_mapping.getD []) k
        = some "unknown_file") :
    alLookup (st.file_mapping.getD []) k = some "unknown_file" := by
  revert h
  cases hcp : st.chunk_performance with
  | none =>
    simp only [backfill_file_mapping_from_chunks, hcp]
    exact fun h => h
  | some cp =>
    simp only [backfill_file_mapping_from_chunks, hcp]
    by_cases hcpe : cp = []
    · rw [if_pos hcpe]
      exact fun h => h
    · rw [if_neg hcpe]
      have key : ∀ (l : List (String × Perf)) (acc : List (String × String) × Bool),
          (alLookup acc.1 k = some "unknown_file" →
            alLookup (st.file_mapping.getD []) k = some "unknown_file") →
          (alLookup (l.foldl backfillStep acc).1 k = some "unknown_file" →
            alLookup (st.file_mapping.getD []) k = some "unknown_file") := by
        intro l
        induction l with
        | nil => exact fun acc hacc => hacc
        | cons e l ih =>
          intro acc hacc
          apply ih
          unfold backfillStep
          cases e.2.filename with
          | none => exact hacc
          | some fn =>
            dsimp only
            by_cases hc : fn ≠ "" ∧ fn ≠ "unknown_file" ∧ containsSubstr e.1 "_chunk_" = true
            · rw [if_pos hc]
              by_cases hl : alLookup acc.1 (fileHashOf e.1) = none
              · rw [if_pos hl]
                by_cases hk : k = fileHashOf e.1
                · intro hv
                  have hv2 : alLookup (alSet acc.1 (fileHashOf e.1) fn) k
                      = some "unknown_file" := hv
                  rw [hk, alLookup_alSet_self] at hv2
                  injection hv2 with hv2
                  exact absurd hv2 hc.2.1
                · intro hv
                  have hv2 : alLookup (alSet acc.1 (fileHashOf e.1) fn) k
                      = some "unknown_file" := hv
                  rw [alLookup_alSet_ne _ _ _ _ hk] at hv2
                  exact hacc hv2
              · rw [if_neg hl]
                exact hacc
            · rw [if_neg hc]
              exact hacc
      split
      · exact key cp (st.file_mapping.getD [], false) (fun h => h)
      · exact fun h => h

theorem groupFold_no_sentinel (l : List (String × Perf)) :
    ∀ (st : State) (files : List (String × Rollup)) (k : String),
      alLookup ((groupFold (st, files) l).1.file_mapping.getD []) k = some "unknown_file" →
      alLookup (st.file_mapping.getD []) k = some "unknown_file" := by
  induction l with
  | nil => exact fun st files k h => h
  | cons e l ih =>
    intro st files k h
    have h' := ih (groupStep (st, files) e).1 (groupStep (st, files) e).2 k h
    rcases groupStep_state st files e with hs | ⟨fh, fn, hfn, _, hs⟩
    · rw [hs] at h'
      exact h'
    · rw [hs] at h'
      rcases autoRegister_lookup st fh fn k _ h' with hv | hv
      · exact absurd hv.symm hfn
      · exact hv

theorem group_no_sentinel_registry (st : State) (all_perf : List (String × Perf))
    (k : String)
    (h : alLookup ((group_chunks_by_file st all_perf).1.file_mapping.getD []) k
        = some "unknown_file") :
    alLookup (st.file_mapping.getD []) k = some "unknown_file" := by
  have h1 := groupFold_no_sentinel all_perf (backfill_file_mapping_from_chunks st) [] k h
  exact backfill_no_sentinel st k h1

theorem stepPerf_filename_some (p : Perf) (src : String) (ic : Bool) (qt : String)
    (fn : Option String) (now : String) :
    (stepPerf (some p) src ic qt fn now).filename
      = (if strTruthy fn = true ∧ strTruthy p.filename = false then fn else p.filename) := by
  by_cases h : strTruthy fn = true ∧ strTruthy p.filename = false <;>
    by_cases hq : qt = "" <;> simp [stepPerf, h, hq]

theorem record_keeps_sentinel (st : State) (cid src : String) (ic : Bool) (qt : String)
    (fn : Option String) (now : String) (key : String) (p : Perf)
    (hp : alLookup (st.chunk_performance.getD []) key = some p)
    (hs : p.filename = some "unknown_file") :
    ∃ p', alLookup ((record_quiz_answer st cid src ic qt fn now).chunk_performance.getD [])
        key = some p' ∧ p'.filename = some "unknown_file" := by
  by_cases hk : key = (if cid = "" then src else cid)
  · refine ⟨stepPerf (alLookup (st.chunk_performance.getD [])
        (if cid = "" then src else cid)) src ic qt fn now, ?_, ?_⟩
    · show alLookup (alSet (st.chunk_performance.getD []) (if cid = "" then src else cid) _)
          key = _
      rw [hk, alLookup_alSet_self]
    · rw [← hk, hp, stepPerf_filename_some]
      have hcond : ¬ (strTruthy fn = true ∧ strTruthy p.filename = false) := by
        rintro ⟨-, h2⟩
        rw [hs] at h2
        exact absurd h2 (by decide)
      rw [if_neg hcond]
      exact hs
  · refine ⟨p, ?_, hs⟩
    show alLookup (alSet (st.chunk_performance.getD []) (if cid = "" then src else cid) _)
        key = _
    rw [alLookup_alSet_ne _ _ _ _ hk]
    exact hp

/-- Claim C6 amended: the fallback paths never write the sentinel
`"unknown_file"` into a registry entry — `backfill_file_mapping_from_chunks`
and the write-back inside `group_chunks_by_file` both skip it (any sentinel
found in the mapping afterwards was already there) — and `record_quiz_answer`
treats a stored `"unknown_file"` as a present filename, so it never
overwrites it with the real filename passed to the call (contrary to the
claim, the sentinel can also be copied into a rollup's filename; see the
counterexample). -/
theorem sentinel_amended :
    (∀ (st : State) (k : String),
      alLookup ((backfill_file_mapping_from_chunks st).file_mapping.getD []) k
          = some "unknown_file" →
        alLookup (st.file_mapping.getD []) k = some "unknown_file")
    ∧ (∀ (st : State) (all_perf : List (String × Perf)) (k : String),
        alLookup ((group_chunks_by_file st all_perf).1.file_mapping.getD []) k
            = some "unknown_file" →
          alLookup (st.file_mapping.getD []) k = some "unknown_file")
    ∧ (∀ (st : State) (cid src : String) (ic : Bool) (qt : String) (fn : Option String)
        (now : String) (key : String) (p : Perf),
        alLookup (st.chunk_performance.getD []) key = some p →
        p.filename = some "unknown_file" →
        ∃ p', alLookup ((record_quiz_answer st cid src ic qt fn
            now).chunk_performance.getD []) key = some p'
          ∧ p'.filename = some "unknown_file") :=
  ⟨backfill_no_sentinel, group_no_sentinel_registry, record_keeps_sentinel⟩

theorem sentinel_amended_witness :
    alLookup ((⟨some [("x", "unknown_file")], none⟩ : State).file_mapping.getD []) "x"
        = some "unknown_file"
    ∧ ∃ p', alLookup ((record_quiz_answer
          ⟨none, some [("k", { filename := some "unknown_file" })]⟩
          "k" "s" true "" (some "real.pdf") "t").chunk_performance.getD []) "k" = some p'
        ∧ p'.filename = some "unknown_file" := by
  constructor
  · exact sentinel_amended.1 ⟨some [("x", "unknown_file")], none⟩ "x" rfl
  · exact sentinel_amended.2.2 ⟨none, some [("k", { filename := some "unknown_file" })]⟩
      "k" "s" true "" (some "real.pdf") "t" "k" { filename := some "unknown_file" } rfl rfl

/-- Claim C6 counterexample: a stored `"unknown_file"` is copied verbatim
into a rollup's filename by `group_chunks_by_file` when the registry has no
entry for the hash (the first-sight resolution keeps the sentinel when the
mapping is empty). -/
theorem sentinel_counterexample :
    ((group_chunks_by_file ⟨some [], none⟩
        [("aaaaaaaa_chunk_1",
          { attempts := 1, correct := 1, filename := some "unknown_file" })]).2.map
      (fun p => (p.1, p.2.filename))) = [("aaaaaaaa", some "unknown_file")] := by decide

end Analytics
